import Mathlib

/-!
Verification of the fluency-annotation pass of `app.py` (ExpTherapy).

The program transcribes audio with an external model and then runs one
linear pass over the word records: it flags filler words, flags a word that
repeats the immediately preceding word, flags gaps longer than 0.7 s, and
finally computes aggregate metrics.  We embed that pass shallowly:
timestamps become rationals, Python strings stay strings (with the
`lower`/`strip` normalisation spelled out over the character list so that
it is kernel-computable), the transcript log becomes a list of tagged
events, and the loop becomes a fold over an explicit state record.
-/

/-- Python `str.lower()`: lower-case every character. -/
def py_lower (s : String) : String := String.mk (s.data.map Char.toLower)

/-- Python `str.strip()`: drop leading and trailing whitespace. -/
def py_strip (s : String) : String :=
  String.mk (((s.data.dropWhile Char.isWhitespace).reverse.dropWhile Char.isWhitespace).reverse)

/-- The per-word normalisation `w["word"].lower().strip()` of the loop body. -/
def normWord (s : String) : String := py_strip (py_lower s)

/-- `FILLERS = {"um", "uh", "erm", "hmm", "you know", "like"}` (app.py line 26). -/
def FILLERS : List String := ["um", "uh", "erm", "hmm", "you know", "like"]

/-- One word record of the transcription: `{word, start, end}`. -/
structure WordRecord where
  word : String
  start : ℚ
  end_ : ℚ
deriving DecidableEq, Repr

/-- One segment of the transcription: an optional word list (the `"words"`
key may be absent) and the segment's end time. -/
structure Segment where
  words : Option (List WordRecord)
  end_ : ℚ
deriving DecidableEq, Repr

/-- One entry of the transcript log, as a tagged event. -/
inductive Event where
  | fillerDetected (word : String)
  | repetitionDetected (word : String)
  | pauseDetected (duration : ℚ)
  | plainWord (word : String)
deriving DecidableEq, Repr

/-- The loop state of `analyze_fluency`: the counters, the pause list, the
two rolling variables `prev_word`/`prev_end`, and the log built so far. -/
structure St where
  repetitions : ℕ
  filler_count : ℕ
  pauses : List ℚ
  prev_word : Option String
  prev_end : Option ℚ
  transcript_log : List Event
deriving DecidableEq, Repr

/-- The state before the loop (app.py lines 38-43). -/
def initSt : St := ⟨0, 0, [], none, none, []⟩

/-- Python `prev_word and word == prev_word`: `prev_word` is truthy
(set and non-empty) and equals the current normalised word. -/
def truthyEq (pw : Option String) (word : String) : Bool :=
  match pw with
  | none => false
  | some p => (p != "") && (word == p)

/-- One iteration of the loop of `analyze_fluency` (app.py lines 45-67). -/
def step (s : St) (w : WordRecord) : St :=
  let word := normWord w.word
  let s1 :=
    if word ∈ FILLERS then
      { s with filler_count := s.filler_count + 1,
               transcript_log := s.transcript_log ++ [Event.fillerDetected word] }
    else s
  let s2 :=
    if truthyEq s.prev_word word then
      { s1 with repetitions := s1.repetitions + 1,
                transcript_log := s1.transcript_log ++ [Event.repetitionDetected word] }
    else s1
  let s3 :=
    match s.prev_end with
    | some pe =>
      let pause := w.start - pe
      if pause > 0.7 then
        { s2 with pauses := s2.pauses ++ [pause],
                  transcript_log := s2.transcript_log ++ [Event.pauseDetected pause] }
      else s2
    | none => s2
  { s3 with transcript_log := s3.transcript_log ++ [Event.plainWord word],
            prev_word := some word,
            prev_end := some w.end_ }

/-- Collect the words of all segments, skipping segments without a
`"words"` key (app.py lines 33-36). -/
def segWords (segs : List Segment) : List WordRecord :=
  (segs.map (fun seg =>
    match seg.words with
    | some ws => ws
    | none => [])).flatten

/-- The metrics record returned by `analyze_fluency` (app.py lines 74-80). -/
structure FluencyMetrics where
  repetitions : ℕ
  fillers : ℕ
  avg_pause : ℚ
  speech_rate : ℚ
  total_words : ℕ
deriving DecidableEq, Repr

/-- `duration = result["segments"][-1]["end"] if result["segments"] else 0`. -/
def durationOf (segs : List Segment) : ℚ :=
  match segs.getLast? with
  | some seg => seg.end_
  | none => 0

/-- The fluency-annotation pass of `analyze_fluency` (app.py lines 33-82),
taking the transcription result (its segment list) as input. -/
def analyze_fluency (segs : List Segment) : List Event × FluencyMetrics :=
  let words := segWords segs
  let fin := words.foldl step initSt
  let total_words := words.length
  let duration := durationOf segs
  let speech_rate := if duration > 0 then (total_words : ℚ) / duration else 0
  ⟨fin.transcript_log,
   { repetitions := fin.repetitions,
     fillers := fin.filler_count,
     avg_pause := if fin.pauses ≠ [] then fin.pauses.sum / (fin.pauses.length : ℚ) else 0,
     speech_rate := speech_rate,
     total_words := total_words }⟩

/-! ### Observers on events -/

/-- Is the event a `FillerDetected`? -/
def isFiller : Event → Bool
  | Event.fillerDetected _ => true
  | _ => false

/-- Is the event a `RepetitionDetected`? -/
def isRep : Event → Bool
  | Event.repetitionDetected _ => true
  | _ => false

/-- Is the event a `PauseDetected`? -/
def isPause : Event → Bool
  | Event.pauseDetected _ => true
  | _ => false

/-- Is the event a `PlainWord`? -/
def isPlain : Event → Bool
  | Event.plainWord _ => true
  | _ => false

/-- The duration carried by a `PauseDetected` event. -/
def pauseOf : Event → Option ℚ
  | Event.pauseDetected d => some d
  | _ => none

/-! ### Per-word event blocks

One loop iteration appends a fixed-shape block to the log: an optional
filler event, an optional repetition event, an optional pause event, then
the word itself.  `blocks` names the block of every word of the input in
order; the fold is proved equal to their concatenation below. -/

/-- The filler events one word contributes. -/
def fillerEvents (word : String) : List Event :=
  if word ∈ FILLERS then [Event.fillerDetected word] else []

/-- The repetition events one word contributes. -/
def repEvents (pw : Option String) (word : String) : List Event :=
  if truthyEq pw word then [Event.repetitionDetected word] else []

/-- The pauses one word contributes to the pause list. -/
def pausesFor (pe : Option ℚ) (start : ℚ) : List ℚ :=
  match pe with
  | some p => if start - p > 0.7 then [start - p] else []
  | none => []

/-- The pause events one word contributes. -/
def pauseEvents (pe : Option ℚ) (start : ℚ) : List Event :=
  (pausesFor pe start).map Event.pauseDetected

/-- The whole event block one word appends to the log. -/
def eventsFor (pw : Option String) (pe : Option ℚ) (w : WordRecord) : List Event :=
  fillerEvents (normWord w.word) ++ repEvents pw (normWord w.word)
    ++ pauseEvents pe w.start ++ [Event.plainWord (normWord w.word)]

/-- The event blocks of a word list, threading the rolling state. -/
def blocks (pw : Option String) (pe : Option ℚ) : List WordRecord → List (List Event)
  | [] => []
  | w :: ws => eventsFor pw pe w :: blocks (some (normWord w.word)) (some w.end_) ws

/-- `prev_word` after folding a word list. -/
def lastNorm (pw : Option String) : List WordRecord → Option String
  | [] => pw
  | w :: ws => lastNorm (some (normWord w.word)) ws

/-- `prev_end` after folding a word list. -/
def lastEnd (pe : Option ℚ) : List WordRecord → Option ℚ
  | [] => pe
  | w :: ws => lastEnd (some w.end_) ws

/-! ### Characterisation of one loop step and of the fold -/

theorem step_eq (s : St) (w : WordRecord) :
    step s w =
      { repetitions := s.repetitions + (repEvents s.prev_word (normWord w.word)).length,
        filler_count := s.filler_count + (fillerEvents (normWord w.word)).length,
        pauses := s.pauses ++ pausesFor s.prev_end w.start,
        prev_word := some (normWord w.word),
        prev_end := some w.end_,
        transcript_log := s.transcript_log ++ eventsFor s.prev_word s.prev_end w } := by
  obtain ⟨r, f, ps, pw, pe, log⟩ := s
  cases pe <;>
    simp only [step, fillerEvents, repEvents, pausesFor, pauseEvents, eventsFor] <;>
    split_ifs <;>
    simp_all [List.append_assoc]

theorem eventsFor_countP_isRep (pw : Option String) (pe : Option ℚ) (w : WordRecord) :
    (eventsFor pw pe w).countP isRep = (repEvents pw (normWord w.word)).length := by
  unfold eventsFor fillerEvents repEvents pauseEvents pausesFor
  cases pe <;> split_ifs <;> simp [isRep, List.countP_append, List.countP_cons]

theorem eventsFor_countP_isFiller (pw : Option String) (pe : Option ℚ) (w : WordRecord) :
    (eventsFor pw pe w).countP isFiller = (fillerEvents (normWord w.word)).length := by
  unfold eventsFor fillerEvents repEvents pauseEvents pausesFor
  cases pe <;> split_ifs <;> simp [isFiller, List.countP_append, List.countP_cons]

theorem eventsFor_countP_isPause (pw : Option String) (pe : Option ℚ) (w : WordRecord) :
    (eventsFor pw pe w).countP isPause = (pausesFor pe w.start).length := by
  unfold eventsFor fillerEvents repEvents pauseEvents pausesFor
  cases pe <;> split_ifs <;> simp [isPause, List.countP_append, List.countP_cons]

theorem eventsFor_countP_isPlain (pw : Option String) (pe : Option ℚ) (w : WordRecord) :
    (eventsFor pw pe w).countP isPlain = 1 := by
  unfold eventsFor fillerEvents repEvents pauseEvents pausesFor
  cases pe <;> split_ifs <;> simp [isPlain, List.countP_append, List.countP_cons]

theorem eventsFor_filterMap_pauseOf (pw : Option String) (pe : Option ℚ) (w : WordRecord) :
    (eventsFor pw pe w).filterMap pauseOf = pausesFor pe w.start := by
  unfold eventsFor fillerEvents repEvents pauseEvents pausesFor
  cases pe <;> split_ifs <;>
    simp [pauseOf, Function.comp, List.filterMap_cons] <;>
    split_ifs <;> simp [pauseOf]

theorem foldl_step_eq (ws : List WordRecord) (s : St) :
    List.foldl step s ws =
      { repetitions := s.repetitions
          + ((blocks s.prev_word s.prev_end ws).flatten.countP isRep),
        filler_count := s.filler_count
          + ((blocks s.prev_word s.prev_end ws).flatten.countP isFiller),
        pauses := s.pauses ++ (blocks s.prev_word s.prev_end ws).flatten.filterMap pauseOf,
        prev_word := lastNorm s.prev_word ws,
        prev_end := lastEnd s.prev_end ws,
        transcript_log := s.transcript_log ++ (blocks s.prev_word s.prev_end ws).flatten } := by
  induction ws generalizing s with
  | nil => simp [blocks, lastNorm, lastEnd]
  | cons w ws ih =>
    rw [List.foldl_cons, ih, step_eq]
    simp [blocks, lastNorm, lastEnd, List.countP_append, List.append_assoc,
      eventsFor_countP_isRep, eventsFor_countP_isFiller, eventsFor_filterMap_pauseOf]
    omega

/-! ### Facts about the analyzer's output -/

theorem analyze_fst (segs : List Segment) :
    (analyze_fluency segs).1 = ((segWords segs).foldl step initSt).transcript_log := rfl

theorem analyze_log (segs : List Segment) :
    (analyze_fluency segs).1 = (blocks none none (segWords segs)).flatten := by
  rw [analyze_fst, foldl_step_eq]
  rfl

theorem analyze_total (segs : List Segment) :
    (analyze_fluency segs).2.total_words = (segWords segs).length := rfl

theorem analyze_reps (segs : List Segment) :
    (analyze_fluency segs).2.repetitions = ((analyze_fluency segs).1).countP isRep := by
  show ((segWords segs).foldl step initSt).repetitions = _
  rw [analyze_log, foldl_step_eq]
  simp [initSt]

theorem analyze_fillers (segs : List Segment) :
    (analyze_fluency segs).2.fillers = ((analyze_fluency segs).1).countP isFiller := by
  show ((segWords segs).foldl step initSt).filler_count = _
  rw [analyze_log, foldl_step_eq]
  simp [initSt]

theorem analyze_pauses (segs : List Segment) :
    ((segWords segs).foldl step initSt).pauses = ((analyze_fluency segs).1).filterMap pauseOf := by
  rw [analyze_log, foldl_step_eq]
  rfl

theorem length_eq_counts (l : List Event) :
    l.length = l.countP isPlain + l.countP isFiller + l.countP isRep + l.countP isPause := by
  induction l with
  | nil => simp
  | cons e t ih =>
    cases e <;> simp [List.countP_cons, isPlain, isFiller, isRep, isPause] <;> omega

theorem blocks_flatten_countP_isPlain (ws : List WordRecord) :
    ∀ (pw : Option String) (pe : Option ℚ),
      ((blocks pw pe ws).flatten).countP isPlain = ws.length := by
  induction ws with
  | nil => intro pw pe; simp [blocks]
  | cons w ws ih =>
    intro pw pe
    simp [blocks, List.countP_append, eventsFor_countP_isPlain, ih]
    omega

theorem blocks_shape (ws : List WordRecord) :
    ∀ (pw : Option String) (pe : Option ℚ),
      List.Forall₂
        (fun b wr => ∃ ann, b = ann ++ [Event.plainWord (normWord wr.word)]
          ∧ ann.all (fun e => !(isPlain e)) = true)
        (blocks pw pe ws) ws := by
  induction ws with
  | nil => intro pw pe; simp [blocks]
  | cons w ws ih =>
    intro pw pe
    refine List.Forall₂.cons ?_ (ih _ _)
    refine ⟨fillerEvents (normWord w.word) ++ repEvents pw (normWord w.word)
      ++ pauseEvents pe w.start, ?_, ?_⟩
    · simp [eventsFor, List.append_assoc]
    · unfold fillerEvents repEvents pauseEvents pausesFor
      cases pe <;> split_ifs <;> simp [isPlain]

/-! ### Claims -/

/-- C1: for every input word sequence, the number of events in the
annotator's log equals the input word count plus the numbers of
FillerDetected, RepetitionDetected and PauseDetected events; the log is the
in-order concatenation of one block per word, and each block consists of
that word's annotation events immediately followed by its PlainWord
event. -/
theorem C1_event_count_and_attachment (segs : List Segment) :
    ((analyze_fluency segs).1).length
        = (segWords segs).length
          + ((analyze_fluency segs).1).countP isFiller
          + ((analyze_fluency segs).1).countP isRep
          + ((analyze_fluency segs).1).countP isPause
    ∧ (analyze_fluency segs).1 = (blocks none none (segWords segs)).flatten
    ∧ List.Forall₂ (fun b wr =>
        ∃ ann, b = ann ++ [Event.plainWord (normWord wr.word)]
          ∧ ann.all (fun e => !(isPlain e)) = true)
        (blocks none none (segWords segs)) (segWords segs) := by
  refine ⟨?_, analyze_log segs, blocks_shape _ none none⟩
  rw [analyze_log, length_eq_counts, blocks_flatten_countP_isPlain]

/-- C2: for every input, the number of PlainWord events in the output
equals the `total_words` metric exactly. -/
theorem C2_plainWord_count (segs : List Segment) :
    ((analyze_fluency segs).1).countP isPlain = (analyze_fluency segs).2.total_words := by
  rw [analyze_log, blocks_flatten_countP_isPlain, analyze_total]

/-- C3: when the input contributes no words (no segments, or segments
without words), every metric is zero and the event list is empty. -/
theorem C3_empty_input (segs : List Segment) (h : segWords segs = []) :
    (analyze_fluency segs).1 = []
    ∧ (analyze_fluency segs).2 =
        { repetitions := 0, fillers := 0, avg_pause := 0, speech_rate := 0,
          total_words := 0 } := by
  constructor
  · rw [analyze_fst, h]
    rfl
  · simp only [analyze_fluency, h, List.foldl_nil, initSt]
    split_ifs <;> simp [FluencyMetrics.mk.injEq]

/-- Witness for C3 at a concrete input: one segment with no `"words"` key. -/
theorem C3_empty_input_holds :
    (analyze_fluency [Segment.mk none 5]).1 = []
    ∧ (analyze_fluency [Segment.mk none 5]).2 =
        { repetitions := 0, fillers := 0, avg_pause := 0, speech_rate := 0,
          total_words := 0 } :=
  C3_empty_input [Segment.mk none 5] rfl

theorem eventsFor_congr (pw : Option String) (pe : Option ℚ) (w1 w2 : WordRecord)
    (h1 : normWord w1.word = normWord w2.word) (h2 : w1.start = w2.start) :
    eventsFor pw pe w1 = eventsFor pw pe w2 := by
  unfold eventsFor
  rw [h1, h2]

theorem step_congr (s : St) (w1 w2 : WordRecord) (h1 : normWord w1.word = normWord w2.word)
    (h2 : w1.start = w2.start) (h3 : w1.end_ = w2.end_) : step s w1 = step s w2 := by
  rw [step_eq, step_eq, h1, h2, h3, eventsFor_congr s.prev_word s.prev_end w1 w2 h1 h2]

/-- C4 as stated fails: after the word `" "` the previous word is set
(to the empty string) and equals the next word's normalised text, yet the
run emits no RepetitionDetected event, because the guard tests Python
truthiness of `prev_word`, not merely that it is set. -/
theorem C4_counterexample :
    (step initSt (WordRecord.mk " " 0 1)).prev_word = some ""
    ∧ normWord " " = ""
    ∧ ((analyze_fluency
        [Segment.mk (some [WordRecord.mk " " 0 1, WordRecord.mk " " 1 2]) 2]).1).countP isRep = 0
    ∧ (analyze_fluency
        [Segment.mk (some [WordRecord.mk " " 0 1, WordRecord.mk " " 1 2]) 2]).2.repetitions = 0 := by
  have hn : normWord " " = "" := by decide
  have hf : "" ∉ FILLERS := by decide
  have ht : truthyEq (some "") "" = false := by decide
  have hp : ¬((0.7:ℚ) < 0) := by norm_num
  refine ⟨?_, hn, ?_, ?_⟩ <;>
    simp [analyze_fluency, segWords, step, initSt, hn, hf, ht, hp, truthyEq, isRep,
      List.countP_cons]

/-- C4 (amended): a RepetitionDetected event fires exactly when the previous
word is set, non-empty, and equals the current word's normalised text; the
comparison looks only at the immediately preceding word, and the input
`["the", "the", "the"]` yields exactly 2 RepetitionDetected events. -/
theorem C4_amended_repetition_rule :
    (∀ (pw : Option String) (word : String),
      truthyEq pw word = true ↔ ∃ p, pw = some p ∧ p ≠ "" ∧ word = p)
    ∧ (∀ (s : St) (w : WordRecord),
        (step s w).repetitions
            = s.repetitions + (if truthyEq s.prev_word (normWord w.word) then 1 else 0)
        ∧ (step s w).transcript_log.countP isRep
            = s.transcript_log.countP isRep
              + (if truthyEq s.prev_word (normWord w.word) then 1 else 0))
    ∧ ((analyze_fluency [Segment.mk (some [WordRecord.mk "the" 0 1, WordRecord.mk "the" 1 2,
        WordRecord.mk "the" 2 3]) 3]).1).countP isRep = 2
    ∧ (analyze_fluency [Segment.mk (some [WordRecord.mk "the" 0 1, WordRecord.mk "the" 1 2,
        WordRecord.mk "the" 2 3]) 3]).2.repetitions = 2 := by
  have hn : normWord "the" = "the" := by decide
  have hf : "the" ∉ FILLERS := by decide
  have ht : truthyEq (some "the") "the" = true := by decide
  have hp : ¬((0.7:ℚ) < 0) := by norm_num
  refine ⟨?_, ?_, ?_, ?_⟩
  · intro pw word
    cases pw <;> simp [truthyEq]
  · intro s w
    constructor
    · rw [step_eq]
      simp only [repEvents]
      split_ifs <;> simp
    · rw [step_eq]
      simp only [List.countP_append, eventsFor_countP_isRep, repEvents]
      split_ifs <;> simp
  · simp [analyze_fluency, segWords, step, initSt, hn, hf, ht, hp, truthyEq, isRep,
      List.countP_cons]
  · simp [analyze_fluency, segWords, step, initSt, hn, hf, ht, hp, truthyEq]

/-- C5: whether a word is classified as a filler depends only on its
lower-cased, whitespace-trimmed text being a member of the fixed filler
set, so classification is case- and whitespace-insensitive; in particular
`" Um "` is processed exactly like `"um"`. -/
theorem C5_filler_normalisation :
    (∀ (s : St) (w : WordRecord),
      (step s w).filler_count
          = s.filler_count + (if normWord w.word ∈ FILLERS then 1 else 0)
      ∧ (step s w).transcript_log.countP isFiller
          = s.transcript_log.countP isFiller + (if normWord w.word ∈ FILLERS then 1 else 0))
    ∧ (∀ (s : St) (a b : ℚ), step s (WordRecord.mk " Um " a b) = step s (WordRecord.mk "um" a b))
    ∧ normWord " Um " = "um"
    ∧ FILLERS = ["um", "uh", "erm", "hmm", "you know", "like"] := by
  refine ⟨?_, ?_, by decide, rfl⟩
  · intro s w
    constructor
    · rw [step_eq]
      simp only [fillerEvents]
      split_ifs <;> simp
    · rw [step_eq]
      simp only [List.countP_append, eventsFor_countP_isFiller, fillerEvents]
      split_ifs <;> simp
  · intro s a b
    exact step_congr s (WordRecord.mk " Um " a b) (WordRecord.mk "um" a b)
      (show normWord " Um " = normWord "um" by decide) rfl rfl

/-- C6: a pause is recorded for the gap before a word exactly when a
previous timestamp exists and the gap is strictly greater than 0.7 s; a
gap of exactly 0.70 s fires no PauseDetected event while a gap of 0.71 s
fires one, placed immediately before the word's PlainWord event. -/
theorem C6_pause_strict_boundary :
    (∀ (s : St) (w : WordRecord),
      (step s w).pauses = s.pauses ++ pausesFor s.prev_end w.start
      ∧ (step s w).transcript_log.countP isPause
          = s.transcript_log.countP isPause + (pausesFor s.prev_end w.start).length)
    ∧ (∀ (pe : Option ℚ) (start d : ℚ),
        d ∈ pausesFor pe start ↔ ∃ p, pe = some p ∧ d = start - p ∧ d > 0.7)
    ∧ ((analyze_fluency
        [Segment.mk (some [WordRecord.mk "a" 0 1, WordRecord.mk "b" 1.7 2]) 2]).1).countP
          isPause = 0
    ∧ (analyze_fluency
        [Segment.mk (some [WordRecord.mk "a" 0 1, WordRecord.mk "b" 1.71 2]) 2]).1
        = [Event.plainWord "a", Event.pauseDetected 0.71, Event.plainWord "b"] := by
  have hna : normWord "a" = "a" := by decide
  have hnb : normWord "b" = "b" := by decide
  have hfa : "a" ∉ FILLERS := by decide
  have hfb : "b" ∉ FILLERS := by decide
  have ht : truthyEq (some "a") "b" = false := by decide
  have hp1 : ¬((0.7:ℚ) < 1.7 - 1) := by norm_num
  have hp2 : ((0.7:ℚ) < 0.71) := by norm_num
  have hq : ((1.71:ℚ) - 1) = 0.71 := by norm_num
  refine ⟨?_, ?_, ?_, ?_⟩
  · intro s w
    constructor
    · rw [step_eq]
    · rw [step_eq]
      simp [List.countP_append, eventsFor_countP_isPause]
  · intro pe start d
    cases pe with
    | none => simp [pausesFor]
    | some p =>
      simp only [pausesFor, Option.some.injEq]
      split_ifs with hc
      · simp only [List.mem_singleton]
        constructor
        · intro hd
          exact ⟨p, rfl, hd, hd ▸ hc⟩
        · rintro ⟨q, hq', hd, _⟩
          subst hq'
          exact hd
      · simp only [List.not_mem_nil, false_iff]
        rintro ⟨q, hq', hd, hgt⟩
        subst hq'
        exact hc (hd ▸ hgt)
  · simp [analyze_fluency, segWords, step, initSt, hna, hnb, hfa, hfb, ht, hp1, truthyEq,
      isPause, List.countP_cons]
  · simp [analyze_fluency, segWords, step, initSt, hna, hnb, hfa, hfb, ht, hp2, hq, truthyEq]

theorem analyze_rate (segs : List Segment) :
    (analyze_fluency segs).2.speech_rate
      = if durationOf segs > 0 then ((segWords segs).length : ℚ) / durationOf segs else 0 := rfl

theorem analyze_avg (segs : List Segment) :
    (analyze_fluency segs).2.avg_pause
      = if ((segWords segs).foldl step initSt).pauses ≠ [] then
          ((segWords segs).foldl step initSt).pauses.sum
            / ((((segWords segs).foldl step initSt).pauses.length : ℕ) : ℚ)
        else 0 := rfl

theorem fold_pauses (ws : List WordRecord) :
    (ws.foldl step initSt).pauses = (blocks none none ws).flatten.filterMap pauseOf := by
  rw [foldl_step_eq]
  simp [initSt]

/-- C7: the aggregate metrics are `total_words` = word count, `duration` =
last segment's end (0 without segments), `speech_rate` = words/duration
with a guarded division (0 when duration is not positive), and `avg_pause`
= mean of the recorded pauses (0 when there are none); 10 words over
duration 5 give rate 2, duration 0 gives rate 0, pauses [1, 2] average to
1.5, and no pauses average to 0. -/
theorem C7_metric_formulas :
    (∀ segs : List Segment,
      (analyze_fluency segs).2.total_words = (segWords segs).length
      ∧ (analyze_fluency segs).2.speech_rate
          = (if durationOf segs > 0 then
              (((analyze_fluency segs).2.total_words : ℕ) : ℚ) / durationOf segs
            else 0)
      ∧ (analyze_fluency segs).2.avg_pause
          = (if ((analyze_fluency segs).1).filterMap pauseOf ≠ [] then
              (((analyze_fluency segs).1).filterMap pauseOf).sum
                / (((((analyze_fluency segs).1).filterMap pauseOf).length : ℕ) : ℚ)
            else 0))
    ∧ (analyze_fluency [Segment.mk (some [WordRecord.mk "w" 0 (1/2), WordRecord.mk "w" (1/2) 1,
        WordRecord.mk "w" 1 (3/2), WordRecord.mk "w" (3/2) 2, WordRecord.mk "w" 2 (5/2),
        WordRecord.mk "w" (5/2) 3, WordRecord.mk "w" 3 (7/2), WordRecord.mk "w" (7/2) 4,
        WordRecord.mk "w" 4 (9/2), WordRecord.mk "w" (9/2) 5]) 5]).2.speech_rate = 2
    ∧ (analyze_fluency [Segment.mk (some [WordRecord.mk "a" 0 0,
        WordRecord.mk "b" 0 0]) 0]).2.speech_rate = 0
    ∧ (analyze_fluency [Segment.mk (some [WordRecord.mk "a" 0 1, WordRecord.mk "b" 2 3,
        WordRecord.mk "c" 5 6]) 6]).2.avg_pause = 1.5
    ∧ (analyze_fluency []).2.avg_pause = 0 := by
  refine ⟨?_, ?_, ?_, ?_, ?_⟩
  · intro segs
    refine ⟨analyze_total segs, analyze_rate segs, ?_⟩
    rw [analyze_avg]
    have hpp : ((segWords segs).foldl step initSt).pauses
        = ((analyze_fluency segs).1).filterMap pauseOf := by
      rw [analyze_log, fold_pauses]
    rw [hpp]
  · rw [analyze_rate]
    norm_num [durationOf, segWords]
  · rw [analyze_rate]
    norm_num [durationOf]
  · have hna : normWord "a" = "a" := by decide
    have hnb : normWord "b" = "b" := by decide
    have hnc : normWord "c" = "c" := by decide
    have hfa : "a" ∉ FILLERS := by decide
    have hfb : "b" ∉ FILLERS := by decide
    have hfc : "c" ∉ FILLERS := by decide
    have ht0 : ∀ x, truthyEq none x = false := fun _ => rfl
    have ht1 : truthyEq (some "a") "b" = false := by decide
    have ht2 : truthyEq (some "b") "c" = false := by decide
    norm_num [analyze_fluency, segWords, step, initSt, hna, hnb, hnc, hfa, hfb, hfc, ht0, ht1, ht2]
    simp
  · simp [analyze_fluency, segWords, initSt]

theorem pausesFor_mem_gt (pe : Option ℚ) (start d : ℚ) (h : d ∈ pausesFor pe start) :
    (0.7:ℚ) < d := by
  cases pe with
  | none => simp [pausesFor] at h
  | some p =>
    simp only [pausesFor] at h
    split_ifs at h with hc
    · rw [List.mem_singleton] at h
      exact h ▸ hc
    · simp at h

theorem blocks_pauses_gt (ws : List WordRecord) :
    ∀ (pw : Option String) (pe : Option ℚ) (d : ℚ),
      d ∈ ((blocks pw pe ws).flatten.filterMap pauseOf) → (0.7:ℚ) < d := by
  induction ws with
  | nil =>
    intro pw pe d h
    simp [blocks] at h
  | cons w ws ih =>
    intro pw pe d h
    simp only [blocks, List.flatten_cons, List.filterMap_append, List.mem_append] at h
    rcases h with h | h
    · rw [eventsFor_filterMap_pauseOf] at h
      exact pausesFor_mem_gt _ _ _ h
    · exact ih _ _ _ h

/-- C8: every field of the returned metrics record is non-negative. -/
theorem C8_metrics_nonneg (segs : List Segment) :
    0 ≤ (analyze_fluency segs).2.repetitions
    ∧ 0 ≤ (analyze_fluency segs).2.fillers
    ∧ 0 ≤ (analyze_fluency segs).2.avg_pause
    ∧ 0 ≤ (analyze_fluency segs).2.speech_rate
    ∧ 0 ≤ (analyze_fluency segs).2.total_words := by
  refine ⟨Nat.zero_le _, Nat.zero_le _, ?_, ?_, Nat.zero_le _⟩
  · rw [analyze_avg]
    split_ifs with h
    · refine div_nonneg (List.sum_nonneg ?_) (Nat.cast_nonneg _)
      intro d hd
      rw [fold_pauses] at hd
      exact le_of_lt (lt_trans (by norm_num) (blocks_pauses_gt (segWords segs) none none d hd))
    · exact le_refl 0
  · rw [analyze_rate]
    split_ifs with h
    · exact div_nonneg (Nat.cast_nonneg _) (le_of_lt h)
    · exact le_refl 0

theorem segWords_cons (sg : Segment) (l : List Segment) :
    segWords (sg :: l)
      = (match sg.words with
          | some ws => ws
          | none => []) ++ segWords l := rfl

theorem segWords_map_fill (segs : List Segment) :
    segWords (segs.map (fun sg => Segment.mk (some (match sg.words with
      | some ws => ws
      | none => [])) sg.end_)) = segWords segs := by
  induction segs with
  | nil => rfl
  | cons sg rest ih =>
    rw [List.map_cons, segWords_cons, segWords_cons, ih]

theorem durationOf_map_fill (segs : List Segment) :
    durationOf (segs.map (fun sg => Segment.mk (some (match sg.words with
      | some ws => ws
      | none => [])) sg.end_)) = durationOf segs := by
  unfold durationOf
  rw [List.getLast?_map]
  cases segs.getLast? <;> rfl

/-- C9: a segment without a `"words"` key contributes zero words and causes
no failure: splicing such a segment into any segment list leaves the
collected words unchanged, and the whole analysis over a segment list
equals the analysis over the same list with every word-less segment
replaced by one carrying an (identical) explicit word list. -/
theorem C9_wordless_segments :
    (∀ (pre post : List Segment) (e : ℚ),
      segWords (pre ++ Segment.mk none e :: post) = segWords (pre ++ post))
    ∧ ∀ segs : List Segment,
        analyze_fluency (segs.map (fun sg => Segment.mk (some (match sg.words with
          | some ws => ws
          | none => [])) sg.end_))
          = analyze_fluency segs := by
  constructor
  · intro pre post e
    simp [segWords]
  · intro segs
    have hw := segWords_map_fill segs
    have hd := durationOf_map_fill segs
    simp only [analyze_fluency, hw, hd]

/-- C10: a word whose normalised text is the empty string never fires a
RepetitionDetected event — even when the previous word's normalised text
is also empty (the guard tests Python truthiness, so an empty previous
word never matches) — and never fires FillerDetected. -/
theorem C10_empty_normalised_word (s : St) (w : WordRecord)
    (h : normWord w.word = "") :
    (step s w).repetitions = s.repetitions
    ∧ (step s w).filler_count = s.filler_count
    ∧ (step s w).transcript_log.countP isRep = s.transcript_log.countP isRep
    ∧ (step s w).transcript_log.countP isFiller = s.transcript_log.countP isFiller := by
  have ht : truthyEq s.prev_word (normWord w.word) = false := by
    rw [h]
    cases s.prev_word with
    | none => rfl
    | some p =>
      rcases eq_or_ne p "" with rfl | hne
      · rfl
      · simp [truthyEq, Ne.symm hne]
  have hf : normWord w.word ∉ FILLERS := by
    rw [h]
    decide
  rw [step_eq]
  refine ⟨?_, ?_, ?_, ?_⟩ <;>
    simp [repEvents, fillerEvents, ht, hf, List.countP_append, eventsFor_countP_isRep,
      eventsFor_countP_isFiller]

/-- Witness for C10: the word `" "` normalises to `""`; with the previous
word set to the empty string it still fires no repetition or filler
event. -/
theorem C10_empty_normalised_word_holds :
    (step (St.mk 0 0 [] (some "") none []) (WordRecord.mk " " 0 1)).repetitions = 0
    ∧ (step (St.mk 0 0 [] (some "") none []) (WordRecord.mk " " 0 1)).filler_count = 0
    ∧ (step (St.mk 0 0 [] (some "") none [])
        (WordRecord.mk " " 0 1)).transcript_log.countP isRep = 0
    ∧ (step (St.mk 0 0 [] (some "") none [])
        (WordRecord.mk " " 0 1)).transcript_log.countP isFiller = 0 :=
  C10_empty_normalised_word (St.mk 0 0 [] (some "") none []) (WordRecord.mk " " 0 1) (by decide)
